import Mathlib

/-!
Shallow embedding of the hoverfly authentication storage backend
(`authentication/backends/storage_backend.go`).

Go byte slices and Go strings are both modelled as `List Nat` (byte
sequences).  Stored values in the user keyspace are modelled at the JSON
level: every byte string either parses to a JSON value or is malformed,
so a stored value is `StoredVal.json j` or `StoredVal.malformed bs`.
The embedded key-value engine (BoltDB) is modelled as two optional
buckets (user records and tokens), each an association list kept in
ascending byte order of keys, which is the engine's native cursor order.
Each public operation maps one `DS.Update`/`DS.View` transaction to a
pure function from `Store` to `Store × Option BackendErr`; a transaction
that returns an error is rolled back, so the store is left unchanged.
-/

set_option maxHeartbeats 1000000

/-- A Go byte slice (and a Go string): a sequence of bytes. -/
abbrev Bytes := List Nat

/-- A JSON value, the parse tree of a stored byte string.  Object field
names are program literals, kept as Lean strings; JSON string values are
byte sequences like every other Go string. -/
inductive Json where
  | null : Json
  | bool (b : Bool) : Json
  | str (s : Bytes) : Json
  | num (n : Int) : Json
  | obj (fields : List (String × Json)) : Json
  | arr (elems : List Json) : Json

/-- A value stored in the user keyspace: every byte string either parses
to a JSON value or is malformed (not valid JSON).  Two distinct malformed
byte strings stay distinct. -/
inductive StoredVal where
  | json (j : Json) : StoredVal
  | malformed (bs : Bytes) : StoredVal

/-- The `User` struct: uuid, username, password and is_admin, with Go
zero values as defaults (what `encoding/json` leaves untouched). -/
structure User where
  uuid : Bytes := []
  username : Bytes := []
  password : Bytes := []
  isAdmin : Bool := false
deriving DecidableEq

/-- Decode failure classes for `DecodeUser`: input bytes that are not
JSON at all, or a JSON value whose shape does not match the struct. -/
inductive DecodeErr where
  | notJson : DecodeErr
  | wrongType : DecodeErr
deriving DecidableEq

/-- Every distinguishable error the backend returns to a caller:
the three BoltDB `Put` rejections (the `WriteError` class), the
"Bucket not found!" error (`KeyspaceMissingError`), the
"not found" errors (`NotFoundError`), and the
"error while getting user" error (`DecodeError`). -/
inductive BackendErr where
  | keyRequired : BackendErr
  | keyTooLarge : BackendErr
  | valueTooLarge : BackendErr
  | bucketNotFound : BackendErr
  | notFound : BackendErr
  | decodeFailed : BackendErr
deriving DecidableEq

/-- A byte is a UTF-8 continuation byte (`0x80`-`0xBF`). -/
def isCont (b : Nat) : Bool := 0x80 ≤ b && b ≤ 0xBF

/-- The allowed range of the first continuation byte of a three-byte
UTF-8 sequence, per Go's `utf8` acceptance table: lead `0xE0` requires
`0xA0`-`0xBF` (no overlong forms), lead `0xED` requires `0x80`-`0x9F`
(no surrogate halves), other leads take any continuation byte. -/
def utf8Accept2 (b0 b1 : Nat) : Bool :=
  if b0 = 0xE0 then 0xA0 ≤ b1 && b1 ≤ 0xBF
  else if b0 = 0xED then 0x80 ≤ b1 && b1 ≤ 0x9F
  else isCont b1

/-- The allowed range of the first continuation byte of a four-byte
UTF-8 sequence, per Go's `utf8` acceptance table: lead `0xF0` requires
`0x90`-`0xBF` (no overlong forms), lead `0xF4` requires `0x80`-`0x8F`
(nothing beyond `U+10FFFF`), other leads take any continuation byte. -/
def utf8Accept3 (b0 b1 : Nat) : Bool :=
  if b0 = 0xF0 then 0x90 ≤ b1 && b1 ≤ 0xBF
  else if b0 = 0xF4 then 0x80 ≤ b1 && b1 ≤ 0x8F
  else isCont b1

/-- The UTF-8 encoding of the Unicode replacement rune `U+FFFD`, which
Go's JSON encoder substitutes for each invalid byte. -/
def replacementBytes : Bytes := [0xEF, 0xBF, 0xBD]

/-- Modelled from Go's `utf8.DecodeRune`: the byte length of the valid
UTF-8 encoding starting with byte `b0` followed by `rest`, or `none`
when `b0` does not begin a valid sequence there (Go then reports
`RuneError` with size one, so exactly one byte is consumed). -/
def utf8RuneLen (b0 : Nat) (rest : Bytes) : Option Nat :=
  if b0 < 0x80 then some 1
  else if 0xC2 ≤ b0 && b0 ≤ 0xDF then
    match rest with
    | b1 :: _ => if isCont b1 then some 2 else none
    | [] => none
  else if 0xE0 ≤ b0 && b0 ≤ 0xEF then
    match rest with
    | b1 :: b2 :: _ => if utf8Accept2 b0 b1 && isCont b2 then some 3 else none
    | _ => none
  else if 0xF0 ≤ b0 && b0 ≤ 0xF4 then
    match rest with
    | b1 :: b2 :: b3 :: _ =>
      if utf8Accept3 b0 b1 && isCont b2 && isCont b3 then some 4 else none
    | _ => none
  else none

/-- The loop of Go's JSON string encoder over the bytes of a string
value: each valid rune is copied verbatim, and each byte at which
`utf8.DecodeRune` fails is replaced by `U+FFFD` (observably, after the
decoder unescapes, its three UTF-8 bytes).  One rune is consumed per
step, so the byte length of the input bounds the iteration count and is
passed as structural fuel. -/
def utf8CoerceAux : Nat → Bytes → Bytes
  | _, [] => []
  | 0, _ :: _ => []
  | fuel + 1, b0 :: rest =>
    match utf8RuneLen b0 rest with
    | none => replacementBytes ++ utf8CoerceAux fuel rest
    | some n => (b0 :: rest).take n ++ utf8CoerceAux fuel ((b0 :: rest).drop n)

/-- The coercion Go's `encoding/json` documents for string values:
"invalid UTF-8 ... replaced by the Unicode replacement rune"; a valid
UTF-8 byte string passes through unchanged. -/
def utf8Coerce (bs : Bytes) : Bytes := utf8CoerceAux bs.length bs

/-- Recogniser loop for valid UTF-8: every position decodes a rune until
the input is exhausted; fuel as in `utf8CoerceAux`. -/
def isValidUtf8Aux : Nat → Bytes → Bool
  | _, [] => true
  | 0, _ :: _ => false
  | fuel + 1, b0 :: rest =>
    match utf8RuneLen b0 rest with
    | none => false
    | some n => isValidUtf8Aux fuel ((b0 :: rest).drop n)

/-- A byte string is valid UTF-8 (in Go's sense: `utf8.Valid`). -/
def isValidUtf8 (bs : Bytes) : Bool := isValidUtf8Aux bs.length bs

/-- `User.Encode`: `json.NewEncoder(buf).Encode(u)` emits a JSON object
with the four tagged fields.  Go's `encoding/json` coerces each string
value to valid UTF-8, replacing invalid bytes with the replacement rune
(`utf8Coerce`); for a struct of strings and a bool the encoder cannot
fail, so the source's dead error branch is dropped. -/
def User.Encode (u : User) : Json :=
  .obj [("uuid", .str (utf8Coerce u.uuid)),
        ("username", .str (utf8Coerce u.username)),
        ("password", .str (utf8Coerce u.password)),
        ("is_admin", .bool u.isAdmin)]

/-- One step of `encoding/json` struct decoding: apply a single object
field to the partially filled `User`.  A known field name must carry a
value of the right type (else the decoder reports a type error), a JSON
`null` leaves the field untouched, and an unknown field name is
ignored. -/
def applyField (u : User) (f : String × Json) : Except DecodeErr User :=
  if f.1 = "uuid" then
    match f.2 with
    | .str s => .ok { u with uuid := s }
    | .null => .ok u
    | _ => .error .wrongType
  else if f.1 = "username" then
    match f.2 with
    | .str s => .ok { u with username := s }
    | .null => .ok u
    | _ => .error .wrongType
  else if f.1 = "password" then
    match f.2 with
    | .str s => .ok { u with password := s }
    | .null => .ok u
    | _ => .error .wrongType
  else if f.1 = "is_admin" then
    match f.2 with
    | .bool b => .ok { u with isAdmin := b }
    | .null => .ok u
    | _ => .error .wrongType
  else .ok u

/-- Fold `applyField` over the fields of a JSON object (later duplicate
fields overwrite earlier ones, as in `encoding/json`). -/
def decodeFields (u : User) : List (String × Json) → Except DecodeErr User
  | [] => .ok u
  | f :: fs =>
    match applyField u f with
    | .error e => .error e
    | .ok u' => decodeFields u' fs

/-- `DecodeUser`: `json.NewDecoder(...).Decode(&u)` with `u : *User`.
Malformed bytes are a decode error; the JSON literal `null` decodes
without error to a nil pointer (`none`); a JSON object fills a fresh
`User` starting from zero values; any other JSON value is a type
error. -/
def DecodeUser : StoredVal → Except DecodeErr (Option User)
  | .malformed _ => .error .notJson
  | .json .null => .ok none
  | .json (.obj fs) =>
    match decodeFields {} fs with
    | .error e => .error e
    | .ok u => .ok (some u)
  | .json _ => .error .wrongType

/-- Byte-wise lexicographic order on byte strings: BoltDB's native key
order (`bytes.Compare`), a proper prefix sorting before its
extensions. -/
def bytesLt : Bytes → Bytes → Bool
  | _, [] => false
  | [], _ :: _ => true
  | a :: as, b :: bs => a < b || (a == b && bytesLt as bs)

/-- A BoltDB bucket: an association list from keys to values, kept in
ascending byte order of keys. -/
abbrev Bucket (α : Type) := List (Bytes × α)

/-- A bucket is sorted when its keys are pairwise strictly ascending in
byte order; every bucket BoltDB materialises has this shape. -/
def SortedBucket {α : Type} (bkt : Bucket α) : Prop :=
  List.Pairwise (fun x y => bytesLt x.1 y.1 = true) bkt

/-- `Bucket.Get`: the value under a key, or `nil` (`none`) when the key
is absent. -/
def lookupB {α : Type} : Bucket α → Bytes → Option α
  | [], _ => none
  | (k, w) :: rest, key => if k = key then some w else lookupB rest key

/-- Insert a key/value pair keeping the bucket sorted; an existing entry
under the same key is overwritten (last-write-wins). -/
def insertSorted {α : Type} (key : Bytes) (v : α) : Bucket α → Bucket α
  | [] => [(key, v)]
  | (k, w) :: rest =>
    if bytesLt key k then (key, v) :: (k, w) :: rest
    else if key = k then (key, v) :: rest
    else (k, w) :: insertSorted key v rest

/-- `Bucket.Delete`: remove the entry under a key; removing an absent
key does nothing and is not an error. -/
def deleteB {α : Type} (bkt : Bucket α) (key : Bytes) : Bucket α :=
  bkt.filter (fun kv => decide (kv.1 ≠ key))

/-- BoltDB's documented maximum key size (32768 bytes). -/
def maxKeySize : Nat := 32768

/-- BoltDB's documented maximum value size (2^31 - 2 bytes). -/
def maxValueSize : Nat := 2 ^ 31 - 2

/-- `Bucket.Put`, modelled from BoltDB's documented contract: the empty
key is rejected with `ErrKeyRequired`, a key beyond `maxKeySize` with
`ErrKeyTooLarge`, a value beyond `maxValueSize` with `ErrValueTooLarge`
(the caller passes that last check in, since only byte-valued buckets
measure it); otherwise the pair is upserted in key order. -/
def boltPut {α : Type} (bkt : Bucket α) (key : Bytes) (v : α)
    (valueTooLarge : Bool) : Except BackendErr (Bucket α) :=
  if key.length = 0 then .error .keyRequired
  else if maxKeySize < key.length then .error .keyTooLarge
  else if valueTooLarge then .error .valueTooLarge
  else .ok (insertSorted key v bkt)

/-- The backend state: the two lazily created keyspaces (`none` is a
keyspace that has never been created) plus the state of the process-wide
unique-identifier source. -/
structure Store where
  userBucket : Option (Bucket StoredVal) := none
  tokenBucket : Option (Bucket Bytes) := none
  uuidCounter : Nat := 0

/-- The store before any operation has run: no keyspace exists yet. -/
def emptyStore : Store := {}

/-- A sample decodable user record with all-ASCII fields. -/
def sampleUser : User :=
  { uuid := [117], username := [97], password := [104], isAdmin := false }

/-- A `User` whose password is a single byte that is not valid UTF-8. -/
def invalidUtf8User : User :=
  { uuid := [], username := [], password := [0xFF], isAdmin := false }

/-- Modelled from the spec: `uuid.New()` "mints a new globally-unique
identifier" each call.  The identifier source is modelled as a counter
held in the store, and the identifier minted at count `n` as a byte
string injective in `n`. -/
def uuidOf (n : Nat) : Bytes := List.replicate (n + 1) 117

/-- The bcrypt version/cost header `$2a$10$` for the fixed work factor
10 used at every call site. -/
def bcryptHeader : Bytes := [36, 50, 97, 36, 49, 48, 36]

/-- Modelled from the spec: `bcrypt.GenerateFromPassword(password, 10)`,
"a deliberately slow, salted one-way hash function with a fixed,
documented work factor".  The Go implementation rejects passwords longer
than 72 bytes with an error; on success it produces a digest beginning
with the version/cost header, never equal to the plaintext.  The salt
and the digest body are abstracted as a deterministic byte transform. -/
def bcryptGenerateFromPassword (password : Bytes) (_cost : Nat) : Option Bytes :=
  if 72 < password.length then none
  else some (bcryptHeader ++ password.map (fun b => (b + 1) % 256))

/-- `AddUser`: one `DS.Update` transaction that creates the user
keyspace if needed, mints a fresh identifier, hashes the password
(discarding any hash error, so a failed hash stores the empty string),
encodes the record and `Put`s it under the username.  A `Put` failure
aborts the transaction, rolling back even the keyspace creation; the
identifier source is process state outside the transaction, so it
advances either way. -/
def AddUser (s : Store) (username password : Bytes) (admin : Bool) :
    Store × Option BackendErr :=
  let bkt := s.userBucket.getD []
  let hashed := (bcryptGenerateFromPassword password 10).getD []
  let u : User :=
    { uuid := uuidOf s.uuidCounter, username := username,
      password := hashed, isAdmin := admin }
  match boltPut bkt username (.json u.Encode) false with
  | .error e => ({ s with uuidCounter := s.uuidCounter + 1 }, some e)
  | .ok bkt2 =>
    ({ s with userBucket := some bkt2, uuidCounter := s.uuidCounter + 1 }, none)

/-- `DeleteUser` via the shared `delete` helper: one `DS.Update`
transaction that creates the user keyspace if needed and deletes the
key; `Bucket.Delete` never fails, so the call always commits. -/
def DeleteUser (s : Store) (username : Bytes) : Store × Option BackendErr :=
  let bkt := s.userBucket.getD []
  ({ s with userBucket := some (deleteB bkt username) }, none)

/-- `GetUser`: one `DS.View` transaction; a missing user keyspace is the
"Bucket not found!" error, a `nil` value is "user not found", a decode
failure is logged and surfaced as "error while getting user"; a stored
JSON `null` decodes without error to no user at all, returned with a nil
error. -/
def GetUser (s : Store) (username : Bytes) : Option User × Option BackendErr :=
  match s.userBucket with
  | none => (none, some .bucketNotFound)
  | some bkt =>
    match lookupB bkt username with
    | none => (none, some .notFound)
    | some v =>
      match DecodeUser v with
      | .error _ => (none, some .decodeFailed)
      | .ok u? => (u?, none)

/-- The observable outcome of a Go call: either the function returns a
value, or the process panics (a nil-pointer dereference inside the
transaction propagates out of the call). -/
inductive GoResult (α : Type) where
  | panics : GoResult α
  | returns (val : α) : GoResult α
deriving DecidableEq

/-- The cursor loop of `GetAllUsers`: each value that fails to decode is
logged and skipped; a value that decodes to a present user is appended;
a value that decodes without error to a nil pointer (the JSON literal
`null`) is dereferenced by `append(users, *usr)` and the process
panics. -/
def collectUsers : Bucket StoredVal → GoResult (List User)
  | [] => .returns []
  | (_, v) :: rest =>
    match DecodeUser v with
    | .error _ => collectUsers rest
    | .ok none => .panics
    | .ok (some u) =>
      match collectUsers rest with
      | .panics => .panics
      | .returns us => .returns (u :: us)

/-- `GetAllUsers`: one `DS.View` transaction; a missing user keyspace
yields the empty sequence and a nil error, otherwise the cursor walks
the bucket in ascending key order collecting decodable records. -/
def GetAllUsers (s : Store) : GoResult (List User × Option BackendErr) :=
  match s.userBucket with
  | none => .returns ([], none)
  | some bkt =>
    match collectUsers bkt with
    | .panics => .panics
    | .returns us => .returns (us, none)

/-- `SetValue`: one `DS.Update` transaction that creates the token
keyspace if needed and `Put`s the value under the key; a `Put` failure
aborts the transaction, rolling back even the keyspace creation. -/
def SetValue (s : Store) (key value : Bytes) : Store × Option BackendErr :=
  let bkt := s.tokenBucket.getD []
  match boltPut bkt key value (decide (maxValueSize < value.length)) with
  | .error e => (s, some e)
  | .ok bkt2 => ({ s with tokenBucket := some bkt2 }, none)

/-- `GetValue`: one `DS.View` transaction; a missing token keyspace is
the "Bucket not found!" error, a `nil` value is "key not found", and a
present value is copied out verbatim. -/
def GetValue (s : Store) (key : Bytes) : Option Bytes × Option BackendErr :=
  match s.tokenBucket with
  | none => (none, some .bucketNotFound)
  | some bkt =>
    match lookupB bkt key with
    | none => (none, some .notFound)
    | some v => (some v, none)

/-- The user carried by a bucket entry when its value decodes to a
present user, and nothing otherwise; `GetAllUsers`' successful result is
the `filterMap` of this over the bucket. -/
def extractUser (kv : Bytes × StoredVal) : Option User :=
  match DecodeUser kv.2 with
  | .ok (some u) => some u
  | _ => none

/-- A bucket entry holds a decodable (present) user record. -/
def isDecodable (kv : Bytes × StoredVal) : Bool :=
  match DecodeUser kv.2 with
  | .ok (some _) => true
  | _ => false

/-! ### Order lemmas for the engine's key order -/

theorem bytesLt_irrefl (a : Bytes) : bytesLt a a = false := by
  induction a with
  | nil => rfl
  | cons x xs ih => simp [bytesLt, ih]

theorem bytesLt_ne {a b : Bytes} (h : bytesLt a b = true) : a ≠ b := by
  intro he
  subst he
  rw [bytesLt_irrefl] at h
  exact absurd h (by simp)

theorem bytesLt_trans : ∀ {a b c : Bytes},
    bytesLt a b = true → bytesLt b c = true → bytesLt a c = true := by
  intro a
  induction a with
  | nil =>
    intro b c hab hbc
    cases c with
    | nil =>
      cases b with
      | nil => exact hab
      | cons y ys => simp [bytesLt] at hbc
    | cons z zs => simp [bytesLt]
  | cons x xs ih =>
    intro b c hab hbc
    cases b with
    | nil => simp [bytesLt] at hab
    | cons y ys =>
      cases c with
      | nil => simp [bytesLt] at hbc
      | cons z zs =>
        simp only [bytesLt, Bool.or_eq_true, Bool.and_eq_true,
          decide_eq_true_eq, beq_iff_eq] at hab hbc ⊢
        rcases hab with h1 | ⟨hxy, h1⟩ <;> rcases hbc with h2 | ⟨hyz, h2⟩
        · exact Or.inl (h1.trans h2)
        · exact Or.inl (hyz ▸ h1)
        · exact Or.inl (hxy ▸ h2)
        · exact Or.inr ⟨hxy.trans hyz, ih h1 h2⟩

theorem bytesLt_total : ∀ {a b : Bytes},
    bytesLt a b = false → a ≠ b → bytesLt b a = true := by
  intro a
  induction a with
  | nil =>
    intro b h hne
    cases b with
    | nil => exact absurd rfl hne
    | cons y ys => simp [bytesLt] at h
  | cons x xs ih =>
    intro b h hne
    cases b with
    | nil => simp [bytesLt]
    | cons y ys =>
      rcases Nat.lt_trichotomy x y with hlt | heq | hgt
      · simp [bytesLt, hlt] at h
      · subst heq
        have hxs : bytesLt xs ys = false := by
          simpa [bytesLt, Nat.lt_irrefl] using h
        have hne' : xs ≠ ys := by
          intro hh
          exact hne (by rw [hh])
        have := ih hxs hne'
        simp [bytesLt, Nat.lt_irrefl, this]
      · simp [bytesLt, hgt]

/-! ### Bucket lemmas -/

theorem mem_insertSorted {α : Type} {key : Bytes} {v : α} :
    ∀ {l : Bucket α} {x : Bytes × α},
      x ∈ insertSorted key v l → x = (key, v) ∨ x ∈ l := by
  intro l
  induction l with
  | nil =>
    intro x h
    simp [insertSorted] at h
    exact Or.inl h
  | cons kw rest ih =>
    intro x h
    obtain ⟨k, w⟩ := kw
    rw [insertSorted] at h
    by_cases h1 : bytesLt key k
    · rw [if_pos h1] at h
      rcases List.mem_cons.mp h with h' | h'
      · exact Or.inl h'
      · exact Or.inr h'
    · rw [if_neg h1] at h
      by_cases h2 : key = k
      · rw [if_pos h2] at h
        rcases List.mem_cons.mp h with h' | h'
        · exact Or.inl h'
        · exact Or.inr (List.mem_cons_of_mem _ h')
      · rw [if_neg h2] at h
        rcases List.mem_cons.mp h with h' | h'
        · exact Or.inr (h' ▸ List.mem_cons_self _ _)
        · rcases ih h' with h'' | h''
          · exact Or.inl h''
          · exact Or.inr (List.mem_cons_of_mem _ h'')

theorem insertSorted_sorted {α : Type} {key : Bytes} {v : α} :
    ∀ {l : Bucket α}, SortedBucket l → SortedBucket (insertSorted key v l) := by
  intro l
  induction l with
  | nil =>
    intro _
    simp [insertSorted, SortedBucket]
  | cons kw rest ih =>
    intro hs
    obtain ⟨k, w⟩ := kw
    rw [SortedBucket, List.pairwise_cons] at hs
    obtain ⟨hall, hrest⟩ := hs
    rw [insertSorted]
    by_cases h1 : bytesLt key k
    · rw [if_pos h1]
      refine List.Pairwise.cons ?_ (List.Pairwise.cons hall hrest)
      intro y hy
      rcases List.mem_cons.mp hy with rfl | hy'
      · exact h1
      · exact bytesLt_trans h1 (hall y hy')
    · rw [if_neg h1]
      by_cases h2 : key = k
      · rw [if_pos h2]
        subst h2
        exact List.Pairwise.cons hall hrest
      · rw [if_neg h2]
        refine List.Pairwise.cons ?_ (ih hrest)
        intro y hy
        rcases mem_insertSorted hy with rfl | hy'
        · exact bytesLt_total (by simpa using h1) h2
        · exact hall y hy'

theorem lookupB_insertSorted_self {α : Type} {key : Bytes} {v : α} :
    ∀ l : Bucket α, lookupB (insertSorted key v l) key = some v := by
  intro l
  induction l with
  | nil => simp [insertSorted, lookupB]
  | cons kw rest ih =>
    obtain ⟨k, w⟩ := kw
    rw [insertSorted]
    by_cases h1 : bytesLt key k
    · rw [if_pos h1]
      simp [lookupB]
    · rw [if_neg h1]
      by_cases h2 : key = k
      · rw [if_pos h2]
        simp [lookupB]
      · rw [if_neg h2]
        rw [lookupB, if_neg (fun hh => h2 hh.symm)]
        exact ih

theorem filter_key_insertSorted {α : Type} {key : Bytes} {v : α} :
    ∀ {l : Bucket α}, SortedBucket l →
      (insertSorted key v l).filter (fun kv => decide (kv.1 = key)) = [(key, v)] := by
  intro l
  induction l with
  | nil =>
    intro _
    simp [insertSorted]
  | cons kw rest ih =>
    intro hs
    obtain ⟨k, w⟩ := kw
    rw [SortedBucket, List.pairwise_cons] at hs
    obtain ⟨hall, hrest⟩ := hs
    rw [insertSorted]
    by_cases h1 : bytesLt key k
    · rw [if_pos h1]
      have hkne : ¬ k = key := fun hh => bytesLt_ne h1 hh.symm
      have hnone : rest.filter (fun kv => decide (kv.1 = key)) = [] := by
        rw [List.filter_eq_nil_iff]
        intro y hy
        have h3 : bytesLt key y.1 = true := bytesLt_trans h1 (hall y hy)
        simp only [decide_eq_true_eq]
        exact fun hh => bytesLt_ne h3 hh.symm
      simp [List.filter_cons, hkne, hnone]
    · rw [if_neg h1]
      by_cases h2 : key = k
      · rw [if_pos h2]
        subst h2
        have hnone : rest.filter (fun kv => decide (kv.1 = key)) = [] := by
          rw [List.filter_eq_nil_iff]
          intro y hy
          simp only [decide_eq_true_eq]
          exact fun hh => bytesLt_ne (hall y hy) hh.symm
        simp [List.filter_cons, hnone]
      · rw [if_neg h2]
        have hkne : ¬ k = key := fun hh => h2 hh.symm
        simp [List.filter_cons, hkne, ih hrest]

/-! ### Operation-level helper lemmas -/

theorem boltPut_ok {α : Type} (bkt : Bucket α) (key : Bytes) (v : α)
    (hne : key ≠ []) (hlen : key.length ≤ maxKeySize) :
    boltPut bkt key v false = .ok (insertSorted key v bkt) := by
  have h0 : ¬ key.length = 0 := fun h => hne (List.length_eq_zero.mp h)
  have h1 : ¬ maxKeySize < key.length := Nat.not_lt.mpr hlen
  simp [boltPut, h0, h1]

theorem uuidOf_injective : Function.Injective uuidOf := by
  intro a b h
  have := congrArg List.length h
  simpa [uuidOf] using this

theorem utf8RuneLen_pos : ∀ {b0 : Nat} {rest : Bytes} {n : Nat},
    utf8RuneLen b0 rest = some n → 1 ≤ n := by
  intro b0 rest n h
  rw [utf8RuneLen.eq_def] at h
  repeat' split at h
  all_goals first
    | (injection h with h; omega)
    | exact absurd h (by simp)

theorem utf8CoerceAux_of_valid :
    ∀ (fuel : Nat) (bs : Bytes), bs.length ≤ fuel → isValidUtf8Aux fuel bs = true →
      utf8CoerceAux fuel bs = bs := by
  intro fuel
  induction fuel with
  | zero =>
    intro bs hlen hv
    cases bs with
    | nil => rfl
    | cons b0 rest =>
      simp only [List.length_cons] at hlen
      omega
  | succ fuel ih =>
    intro bs hlen hv
    cases bs with
    | nil => rfl
    | cons b0 rest =>
      rw [utf8CoerceAux]
      rw [isValidUtf8Aux] at hv
      cases hn : utf8RuneLen b0 rest with
      | none =>
        rw [hn] at hv
        simp at hv
      | some n =>
        rw [hn] at hv
        simp only [] at hv ⊢
        have hpos : 1 ≤ n := utf8RuneLen_pos hn
        have hdlen : ((b0 :: rest).drop n).length ≤ fuel := by
          simp only [List.length_drop, List.length_cons] at *
          omega
        rw [ih _ hdlen (by simpa using hv)]
        exact List.take_append_drop n (b0 :: rest)

theorem utf8Coerce_of_valid (bs : Bytes) (h : isValidUtf8 bs = true) :
    utf8Coerce bs = bs :=
  utf8CoerceAux_of_valid bs.length bs le_rfl h

theorem collectUsers_eq_filterMap :
    ∀ {l : Bucket StoredVal} {us : List User},
      collectUsers l = .returns us → us = l.filterMap extractUser := by
  intro l
  induction l with
  | nil =>
    intro us h
    simp [collectUsers] at h
    simp [← h]
  | cons kv rest ih =>
    intro us h
    obtain ⟨k, v⟩ := kv
    rw [collectUsers] at h
    cases hd : DecodeUser v with
    | error e =>
      rw [hd] at h
      simp [List.filterMap_cons, extractUser, hd, ih h]
    | ok u? =>
      cases u? with
      | none =>
        rw [hd] at h
        exact absurd h (by simp)
      | some u =>
        rw [hd] at h
        cases hc : collectUsers rest with
        | panics =>
          rw [hc] at h
          exact absurd h (by simp)
        | returns us' =>
          rw [hc] at h
          have hres : u :: us' = us := by simpa using h
          simp [← hres, List.filterMap_cons, extractUser, hd, ih hc]

/-! ### Claim theorems -/

/-- C1: the claim that no core operation panics on any input — in
particular that `GetAllUsers` returns normally when the user keyspace
holds the byte value `null` — fails on the code: `DecodeUser` decodes
the JSON literal `null` to a nil pointer without error, and
`GetAllUsers` then dereferences it in `append(users, *usr)`, crashing
the process.  This theorem evaluates the model at that failing input. -/
theorem getAllUsers_null_record_panics :
    GetAllUsers { userBucket := some [([107], .json .null)] } = .panics := rfl

/-- C2 counterexample: the claim quantifies over every `User` value,
but Go's JSON encoder coerces string values to valid UTF-8; for a user
whose password is the single invalid byte `0xFF`, the encoder emits the
replacement rune and decoding returns its bytes `EF BF BD`, not the
original attribute, so the round trip does not reproduce the user. -/
theorem decodeUser_encode_not_roundtrip :
    DecodeUser (.json invalidUtf8User.Encode) ≠ .ok (some invalidUtf8User) := by
  intro hcontra
  have h1 : DecodeUser (.json invalidUtf8User.Encode)
      = .ok (some { uuid := [], username := [], password := [0xEF, 0xBF, 0xBD], isAdmin := false }) := rfl
  rw [h1] at hcontra
  simp [invalidUtf8User] at hcontra

/-- C2 (amended): for every `User` value whose uuid, username and
password are valid UTF-8 byte sequences, decoding the encoding succeeds
and reproduces all four attributes exactly: `DecodeUser (Encode u)`
returns a user equal to `u`. -/
theorem decodeUser_encode_roundtrip (u : User)
    (h1 : isValidUtf8 u.uuid = true) (h2 : isValidUtf8 u.username = true)
    (h3 : isValidUtf8 u.password = true) :
    DecodeUser (.json u.Encode) = .ok (some u) := by
  simp only [User.Encode]
  rw [utf8Coerce_of_valid _ h1, utf8Coerce_of_valid _ h2,
    utf8Coerce_of_valid _ h3]
  rfl

/-- C2 witness: the round trip at a concrete all-ASCII user. -/
theorem decodeUser_encode_roundtrip_witness :
    DecodeUser (.json (User.Encode sampleUser)) = .ok (some sampleUser) :=
  decodeUser_encode_roundtrip sampleUser (by decide) (by decide) (by decide)


/-- A user keyspace holding one decodable record, one malformed record,
and one record whose bytes are the JSON literal `null`. -/
def mixedBucket : Bucket StoredVal :=
  [([1], .json sampleUser.Encode), ([2], .malformed [123]), ([3], .json .null)]

/-- C5: the claim that `GetAllUsers` succeeds on every store state,
skipping malformed records, fails on the code: on a store holding one
decodable record, one malformed record and one record whose bytes are
the JSON literal `null`, the call does not return the decodable record
— it panics on the nil pointer decoded from `null`.  This theorem
evaluates the model at that failing input. -/
theorem getAllUsers_mixed_store_panics :
    GetAllUsers { userBucket := some mixedBucket } = .panics := rfl

/-- C4: `GetValue` on a store whose token keyspace has never been
created fails with the keyspace-missing error; after a `SetValue` call
has created the token keyspace, `GetValue` on a key absent from it fails
with the not-found error; and the two failures are distinguishable. -/
theorem getValue_keyspace_asymmetry :
    (∀ (s : Store) (k : Bytes), s.tokenBucket = none →
      GetValue s k = (none, some .bucketNotFound))
    ∧ (∀ (s s' : Store) (k v k' : Bytes), SetValue s k v = (s', none) →
        lookupB (s'.tokenBucket.getD []) k' = none →
        GetValue s' k' = (none, some .notFound))
    ∧ BackendErr.bucketNotFound ≠ BackendErr.notFound := by
  refine ⟨?_, ?_, by simp⟩
  · intro s k hnone
    simp [GetValue, hnone]
  · intro s s' k v k' hset hlook
    simp only [SetValue] at hset
    cases hput : boltPut (s.tokenBucket.getD []) k v
        (decide (maxValueSize < v.length)) with
    | error e =>
      rw [hput] at hset
      simp at hset
    | ok bkt2 =>
      rw [hput] at hset
      simp only [Prod.mk.injEq] at hset
      obtain ⟨hs', -⟩ := hset
      subst hs'
      simp only [Option.getD_some] at hlook
      simp [GetValue, hlook]

/-- C4 witness: on the empty store every lookup reports the missing
keyspace, and after one `SetValue` an absent key reports not-found. -/
theorem getValue_keyspace_asymmetry_witness :
    GetValue emptyStore [1] = (none, some .bucketNotFound)
    ∧ GetValue (SetValue emptyStore [1] [9]).1 [2] = (none, some .notFound) := by
  constructor
  · exact getValue_keyspace_asymmetry.1 emptyStore [1] rfl
  · exact getValue_keyspace_asymmetry.2.1 emptyStore
      (SetValue emptyStore [1] [9]).1 [1] [9] [2] rfl rfl

/-- C7: `GetUser` fails exactly in three distinguishable cases: the
keyspace-missing error when the user keyspace has never been created,
the not-found error when the keyspace exists but the username is
absent, and the decode error when the stored record fails to decode,
in which case the call returns no user. -/
theorem getUser_error_cases (s : Store) (un : Bytes) :
    ((GetUser s un).2 = some .bucketNotFound ↔ s.userBucket = none)
    ∧ (∀ bkt, s.userBucket = some bkt →
        (((GetUser s un).2 = some .notFound) ↔ lookupB bkt un = none))
    ∧ (∀ bkt v, s.userBucket = some bkt → lookupB bkt un = some v →
        (((GetUser s un).2 = some .decodeFailed) ↔ ∃ e, DecodeUser v = .error e))
    ∧ (∀ e, (GetUser s un).2 = some e →
        e = .bucketNotFound ∨ e = .notFound ∨ e = .decodeFailed)
    ∧ ((GetUser s un).2 = some .decodeFailed → (GetUser s un).1 = none)
    ∧ (BackendErr.bucketNotFound ≠ BackendErr.notFound
       ∧ BackendErr.bucketNotFound ≠ BackendErr.decodeFailed
       ∧ BackendErr.notFound ≠ BackendErr.decodeFailed) := by
  cases hb : s.userBucket with
  | none => simp [GetUser, hb]
  | some bkt =>
    cases hl : lookupB bkt un with
    | none =>
      simp only [GetUser, hb, hl]
      refine ⟨by simp, by simp [hl], ?_, by simp, by simp, by simp⟩
      intro bkt1 v hbe hlv
      rw [Option.some_inj] at hbe
      subst hbe
      rw [hl] at hlv
      simp at hlv
    | some v =>
      cases hd : DecodeUser v with
      | error e =>
        simp only [GetUser, hb, hl, hd]
        refine ⟨by simp, by simp [hl], ?_, by simp, by simp, by simp⟩
        intro bkt1 v1 hbe hlv
        rw [Option.some_inj] at hbe
        subst hbe
        rw [hl, Option.some_inj] at hlv
        subst hlv
        simp [hd]
      | ok u? =>
        simp only [GetUser, hb, hl, hd]
        refine ⟨by simp, by simp [hl], ?_, by simp, by simp, by simp⟩
        intro bkt1 v1 hbe hlv
        rw [Option.some_inj] at hbe
        subst hbe
        rw [hl, Option.some_inj] at hlv
        subst hlv
        simp [hd]

/-- C7 witness: on the empty store `GetUser` reports the missing
keyspace. -/
theorem getUser_error_cases_witness :
    (GetUser emptyStore [5]).2 = some .bucketNotFound :=
  (getUser_error_cases emptyStore [5]).1.mpr rfl

/-- C8: `DeleteUser` always succeeds — in particular on a username
absent from the user keyspace, and again on an already-deleted
username — and deleting is idempotent on the store state. -/
theorem deleteUser_idempotent (s : Store) (un : Bytes) :
    (DeleteUser s un).2 = none
    ∧ (DeleteUser (DeleteUser s un).1 un).2 = none
    ∧ (DeleteUser (DeleteUser s un).1 un).1 = (DeleteUser s un).1 := by
  refine ⟨rfl, rfl, ?_⟩
  simp [DeleteUser, deleteB, List.filter_filter]

/-- C3 counterexample: the claim quantifies over every username, but for
the empty username both `AddUser` calls are rejected by the engine
(`Put` requires a non-empty key, and the transaction rolls back), so no
record at all is stored under that key — not exactly one. -/
theorem addUser_twice_empty_username_stores_nothing :
    ((AddUser (AddUser emptyStore [] [112] false).1 [] [113] true).1).userBucket = none
    ∧ (AddUser emptyStore [] [112] false).2 = some .keyRequired
    ∧ (AddUser (AddUser emptyStore [] [112] false).1 [] [113] true).2
        = some .keyRequired := ⟨rfl, rfl, rfl⟩

/-- C3 (amended): for every non-empty username of at most the engine's
maximum key size, calling `AddUser` twice with that username leaves
exactly one record stored under that key, whose admin flag is that of
the second call and whose identifier differs from the identifier minted
by the first call; each call mints a fresh identifier regardless of
whether the username already exists. -/
theorem addUser_twice_overwrites (s : Store) (un p1 p2 : Bytes) (a1 a2 : Bool)
    (hsorted : SortedBucket (s.userBucket.getD []))
    (hne : un ≠ []) (hlen : un.length ≤ maxKeySize) :
    (AddUser s un p1 a1).2 = none
    ∧ (AddUser (AddUser s un p1 a1).1 un p2 a2).2 = none
    ∧ ((AddUser (AddUser s un p1 a1).1 un p2 a2).1.userBucket.getD []).filter
        (fun kv => decide (kv.1 = un))
        = [(un, StoredVal.json (User.Encode
            { uuid := uuidOf (s.uuidCounter + 1), username := un,
              password := (bcryptGenerateFromPassword p2 10).getD [],
              isAdmin := a2 }))]
    ∧ uuidOf (s.uuidCounter + 1) ≠ uuidOf s.uuidCounter := by
  have hput := fun (bkt : Bucket StoredVal) (v : StoredVal) =>
    boltPut_ok bkt un v hne hlen
  refine ⟨?_, ?_, ?_, ?_⟩
  · simp [AddUser, hput]
  · simp [AddUser, hput]
  · simp only [AddUser, hput, Option.getD_some]
    exact filter_key_insertSorted (insertSorted_sorted hsorted)
  · intro h
    have := uuidOf_injective h
    omega

/-- C3 witness: two concrete `AddUser` calls with username `"a"`. -/
theorem addUser_twice_overwrites_witness :
    (AddUser emptyStore [97] [112] false).2 = none
    ∧ (AddUser (AddUser emptyStore [97] [112] false).1 [97] [113] true).2 = none
    ∧ ((AddUser (AddUser emptyStore [97] [112] false).1 [97] [113] true).1.userBucket.getD
        []).filter (fun kv => decide (kv.1 = [97]))
        = [([97], StoredVal.json (User.Encode
            { uuid := uuidOf 1, username := [97],
              password := (bcryptGenerateFromPassword [113] 10).getD [],
              isAdmin := true }))]
    ∧ uuidOf 1 ≠ uuidOf 0 :=
  addUser_twice_overwrites emptyStore [97] [112] [113] false true
    List.Pairwise.nil (by decide) (by decide)

/-- C6 counterexample: for a 73-byte password the hash step fails, the
code discards the error, and the record persisted under `"bob"` carries
no hash of the plaintext at all — its password field is the empty
string — so it is false that only a salted one-way hash of the
plaintext is ever stored. -/
theorem addUser_long_password_stores_no_hash :
    ¬ ∃ h : Bytes,
        bcryptGenerateFromPassword (List.replicate 73 97) 10 = some h
        ∧ lookupB (((AddUser emptyStore [98, 111, 98] (List.replicate 73 97)
              false).1).userBucket.getD []) [98, 111, 98]
          = some (.json (User.Encode
              { uuid := uuidOf 0, username := [98, 111, 98],
                password := h, isAdmin := false })) := by
  rintro ⟨h, hh, -⟩
  rw [bcryptGenerateFromPassword] at hh
  simp at hh

/-- C6 (amended): for every valid (non-empty, within the key-size
limit) username, after `AddUser` the persisted record's password field
never equals the caller-supplied plaintext; when the hash step succeeds
(password at most 72 bytes) the stored field is the salted hash, and
when it fails (password longer than 72 bytes) the stored field is the
empty string rather than a hash. -/
theorem addUser_password_opacity (s : Store) (un p : Bytes) (a : Bool)
    (hne : un ≠ []) (hlen : un.length ≤ maxKeySize) :
    lookupB ((AddUser s un p a).1.userBucket.getD []) un
      = some (.json (User.Encode
          { uuid := uuidOf s.uuidCounter, username := un,
            password := (bcryptGenerateFromPassword p 10).getD [],
            isAdmin := a }))
    ∧ (bcryptGenerateFromPassword p 10).getD [] ≠ p
    ∧ (p.length ≤ 72 →
        bcryptGenerateFromPassword p 10
          = some (bcryptHeader ++ p.map (fun b => (b + 1) % 256)))
    ∧ (72 < p.length → (bcryptGenerateFromPassword p 10).getD [] = []) := by
  have hput := fun (bkt : Bucket StoredVal) (v : StoredVal) =>
    boltPut_ok bkt un v hne hlen
  refine ⟨?_, ?_, ?_, ?_⟩
  · simp only [AddUser, hput, Option.getD_some]
    exact lookupB_insertSorted_self _
  · have hlen2 : ((bcryptGenerateFromPassword p 10).getD []).length ≠ p.length := by
      rw [bcryptGenerateFromPassword]
      by_cases hp : 72 < p.length
      · rw [if_pos hp]
        simp only [Option.getD_none, List.length_nil]
        omega
      · rw [if_neg hp]
        simp [bcryptHeader]
        omega
    exact fun hcontra => hlen2 (congrArg List.length hcontra)
  · intro hp
    rw [bcryptGenerateFromPassword, if_neg (Nat.not_lt.mpr hp)]
  · intro hp
    rw [bcryptGenerateFromPassword, if_pos hp]
    rfl

/-- C6 witness: a concrete `AddUser` call with username `"bob"` and
password `"pw"`. -/
theorem addUser_password_opacity_witness :
    lookupB ((AddUser emptyStore [98, 111, 98] [112, 119] false).1.userBucket.getD
        []) [98, 111, 98]
      = some (.json (User.Encode
          { uuid := uuidOf 0, username := [98, 111, 98],
            password := (bcryptGenerateFromPassword [112, 119] 10).getD [],
            isAdmin := false }))
    ∧ (bcryptGenerateFromPassword [112, 119] 10).getD [] ≠ [112, 119]
    ∧ bcryptGenerateFromPassword [112, 119] 10
        = some (bcryptHeader ++ ([112, 119] : Bytes).map (fun b => (b + 1) % 256)) := by
  have h := addUser_password_opacity emptyStore [98, 111, 98] [112, 119] false
    (by decide) (by decide)
  exact ⟨h.1, h.2.1, h.2.2.1 (by decide)⟩

/-- C10: `AddUser` ignores a failure of the password-hashing step: for
every password on which the modelled hash function fails (any password
longer than bcrypt's 72-byte input limit) and every valid username, the
call still returns success and persists a record whose password field
is the empty string, rather than failing with a write error. -/
theorem addUser_ignores_hash_failure (s : Store) (un p : Bytes) (a : Bool)
    (hne : un ≠ []) (hlen : un.length ≤ maxKeySize)
    (hfail : bcryptGenerateFromPassword p 10 = none) :
    (AddUser s un p a).2 = none
    ∧ lookupB ((AddUser s un p a).1.userBucket.getD []) un
        = some (.json (User.Encode
            { uuid := uuidOf s.uuidCounter, username := un,
              password := [], isAdmin := a })) := by
  have hput := fun (bkt : Bucket StoredVal) (v : StoredVal) =>
    boltPut_ok bkt un v hne hlen
  constructor
  · simp [AddUser, hput]
  · simp only [AddUser, hput, hfail, Option.getD_none, Option.getD_some]
    exact lookupB_insertSorted_self _

/-- C10 witness: a 73-byte password with username `"bob"`. -/
theorem addUser_ignores_hash_failure_witness :
    (AddUser emptyStore [98, 111, 98] (List.replicate 73 97) false).2 = none
    ∧ lookupB ((AddUser emptyStore [98, 111, 98] (List.replicate 73 97)
          false).1.userBucket.getD []) [98, 111, 98]
        = some (.json (User.Encode
            { uuid := uuidOf 0, username := [98, 111, 98],
              password := [], isAdmin := false })) :=
  addUser_ignores_hash_failure emptyStore [98, 111, 98] (List.replicate 73 97)
    false (by decide) (by decide) (by decide)

/-- A store whose user keyspace holds two records in ascending key
order: one decodable record and one malformed record. -/
def orderedStore : Store :=
  { userBucket := some [([1], .json sampleUser.Encode), ([2], .malformed [64])] }

/-- C9: whenever `GetAllUsers` returns, it returns no error and lists
exactly the decodable user records, produced by walking the user
keyspace in its stored order; since the keyspace is kept in ascending
byte order of keys, the selected records' keys are pairwise ascending in
that order. -/
theorem getAllUsers_ordered (s : Store)
    (hsorted : SortedBucket (s.userBucket.getD []))
    (us : List User) (e : Option BackendErr)
    (h : GetAllUsers s = .returns (us, e)) :
    e = none
    ∧ us = (s.userBucket.getD []).filterMap extractUser
    ∧ List.Pairwise (fun x y => bytesLt x.1 y.1 = true)
        ((s.userBucket.getD []).filter isDecodable) := by
  have hsorted' : List.Pairwise
      (fun (x y : Bytes × StoredVal) => bytesLt x.1 y.1 = true)
      (s.userBucket.getD []) := hsorted
  have hpair : List.Pairwise
      (fun (x y : Bytes × StoredVal) => bytesLt x.1 y.1 = true)
      ((s.userBucket.getD []).filter isDecodable) :=
    hsorted'.sublist (List.filter_sublist _)
  cases hb : s.userBucket with
  | none =>
    simp only [GetAllUsers, hb] at h
    simp only [GoResult.returns.injEq, Prod.mk.injEq] at h
    obtain ⟨h1, h2⟩ := h
    rw [hb] at hpair
    refine ⟨h2.symm, ?_, hpair⟩
    rw [← h1]
    simp
  | some bkt =>
    simp only [GetAllUsers, hb] at h
    cases hc : collectUsers bkt with
    | panics =>
      rw [hc] at h
      exact absurd h (by simp)
    | returns us' =>
      rw [hc] at h
      simp only [GoResult.returns.injEq, Prod.mk.injEq] at h
      obtain ⟨h1, h2⟩ := h
      rw [hb] at hpair
      refine ⟨h2.symm, ?_, hpair⟩
      rw [← h1]
      simpa using collectUsers_eq_filterMap hc

/-- C9 witness: on `orderedStore`, `GetAllUsers` returns exactly the
decodable record, and the selected entries are in ascending key
order. -/
theorem getAllUsers_ordered_witness :
    (none : Option BackendErr) = none
    ∧ [sampleUser] = (orderedStore.userBucket.getD []).filterMap extractUser
    ∧ List.Pairwise (fun x y => bytesLt x.1 y.1 = true)
        ((orderedStore.userBucket.getD []).filter isDecodable) := by
  refine getAllUsers_ordered orderedStore ?_ [sampleUser] none rfl
  have hp : List.Pairwise (fun (x y : Bytes × StoredVal) => bytesLt x.1 y.1 = true)
      [([1], .json sampleUser.Encode), ([2], .malformed [64])] := by decide
  exact hp
